import Mathlib

set_option maxHeartbeats 1000000

namespace Nubik

/-! Shallow embedding of the rendering core of the repository (Renderer, SpriteBatch,
Font, Framebuffer and the GPU-resource wrappers).  JS numbers are modelled as exact
rationals (`ℚ`); the fixed-size `Float32Array` scratch buffer of the Renderer is
modelled by the list of its first `vertexCount` vertex records, which is the only
part of the buffer the code ever reads (`endGeometry` uploads exactly
`VERTEX_ELEMENTS * vertexCount` floats from offset 0, and `addVertex` writes at
offset `VERTEX_ELEMENTS * vertexCount`). -/

/-- One interleaved vertex record of the renderer's fixed layout:
position.xy, texCoord.uv, color.rgba = 8 floats per vertex (`VERTEX_ELEMENTS = 8`). -/
structure Vertex where
  x : ℚ
  y : ℚ
  u : ℚ
  v : ℚ
  r : ℚ
  g : ℚ
  b : ℚ
  a : ℚ
deriving DecidableEq

/-- Renderer geometry-accumulation state.  `current` is the live prefix of the
scratch buffer (so `vertexCount = current.length`); `draws` is the list of vertex
batches that have been uploaded and drawn so far (one entry per GPU draw call),
oldest first. -/
structure RendererState where
  current : List Vertex
  draws : List (List Vertex)
deriving DecidableEq

/-- `Renderer.MAX_VERTICES = 65535`. -/
def Renderer.MAX_VERTICES : ℕ := 65535

/-- `beginGeometry()`: `this.vertexCount = 0`. -/
def Renderer.beginGeometry (s : RendererState) : RendererState :=
  { s with current := [] }

/-- `endGeometry()`: if `vertexCount === 0` return (no upload, no draw call);
otherwise upload the first `VERTEX_ELEMENTS * vertexCount` floats of the scratch
buffer and issue one draw call of `vertexCount` vertices.  The vertex count is
not reset. -/
def Renderer.endGeometry (s : RendererState) : RendererState :=
  if s.current.length = 0 then s
  else { current := s.current, draws := s.draws ++ [s.current] }

/-- `addVertex(_x,_y,_u,_v,_r,_g,_b,_a)`: writes the 8 floats of one vertex record
at offset `VERTEX_ELEMENTS * vertexCount` and increments `vertexCount`.  The 8
scalar arguments are bundled into a `Vertex`. -/
def Renderer.addVertex (s : RendererState) (v : Vertex) : RendererState :=
  { s with current := s.current ++ [v] }

/-- `drawTriangle(ax,ay,au,av, bx,by,bu,bv, cx,cy,cu,cv, r,g,b,a)`:
if `vertexCount + 3 >= MAX_VERTICES` then `endGeometry().beginGeometry()`, then
three `addVertex` calls sharing the color. -/
def Renderer.drawTriangle (s : RendererState)
    (ax ay au av bx by' bu bv cx cy cu cv r g b a : ℚ) : RendererState :=
  let s1 := if s.current.length + 3 ≥ Renderer.MAX_VERTICES
    then Renderer.beginGeometry (Renderer.endGeometry s) else s
  Renderer.addVertex (Renderer.addVertex (Renderer.addVertex s1
    ⟨ax, ay, au, av, r, g, b, a⟩) ⟨bx, by', bu, bv, r, g, b, a⟩) ⟨cx, cy, cu, cv, r, g, b, a⟩

/-- `drawQuad`: two `drawTriangle` calls sharing the diagonal a→c:
triangle (a,b,c) then triangle (a,c,d). -/
def Renderer.drawQuad (s : RendererState)
    (ax ay au av bx by' bu bv cx cy cu cv dx dy du dv r g b a : ℚ) : RendererState :=
  Renderer.drawTriangle
    (Renderer.drawTriangle s ax ay au av bx by' bu bv cx cy cu cv r g b a)
    ax ay au av cx cy cu cv dx dy du dv r g b a

/-- `drawRectangle(x, y, width, height, u0, v0, u1, v1, r, g, b, a)`. -/
def Renderer.drawRectangle (s : RendererState)
    (x y width height u0 v0 u1 v1 r g b a : ℚ) : RendererState :=
  let ax := x
  let ay := y
  let bx := x + width
  let by' := y
  let cx := x + width
  let cy := y + height
  let dx := x
  let dy := y + height
  Renderer.drawQuad s ax ay u0 v0 bx by' u1 v0 cx cy u1 v1 dx dy u0 v1 r g b a

/-- `drawRectangleOffCenter(x, y, width, height, u0, v0, u1, v1, r, g, b, a)`. -/
def Renderer.drawRectangleOffCenter (s : RendererState)
    (x y width height u0 v0 u1 v1 r g b a : ℚ) : RendererState :=
  let halfWidth := width / 2
  let halfHeight := height / 2
  let ax := x - halfWidth
  let ay := y - halfHeight
  let bx := x + halfWidth
  let by' := y - halfHeight
  let cx := x + halfWidth
  let cy := y + halfHeight
  let dx := x - halfWidth
  let dy := y + halfHeight
  Renderer.drawQuad s ax ay u0 v0 bx by' u1 v0 cx cy u1 v1 dx dy u0 v1 r g b a

/-- `drawRotatedRectangleOffCenter(x, y, width, height, angle, u0, v0, u1, v1, r, g, b, a)`.
The source computes `sinA = Math.sin(angle)` and `cosA = Math.cos(angle)`; those two
transcendental values are taken as parameters here (they are opaque inputs to the
rational corner arithmetic, which is translated verbatim). -/
def Renderer.drawRotatedRectangleOffCenter (s : RendererState)
    (x y width height sinA cosA u0 v0 u1 v1 r g b a : ℚ) : RendererState :=
  let halfWidth := width / 2
  let halfHeight := height / 2
  let ax0 := -halfWidth
  let ay0 := -halfHeight
  let bx0 := halfWidth
  let by0 := -halfHeight
  let cx0 := halfWidth
  let cy0 := halfHeight
  let dx0 := -halfWidth
  let dy0 := halfHeight
  let ax := x + cosA * ax0 - sinA * ay0
  let ay := y + sinA * ax0 + cosA * ay0
  let bx := x + cosA * bx0 - sinA * by0
  let by' := y + sinA * bx0 + cosA * by0
  let cx := x + cosA * cx0 - sinA * cy0
  let cy := y + sinA * cx0 + cosA * cy0
  let dx := x + cosA * dx0 - sinA * dy0
  let dy := y + sinA * dx0 + cosA * dy0
  Renderer.drawQuad s ax ay u0 v0 bx by' u1 v0 cx cy u1 v1 dx dy u0 v1 r g b a

/-- One recorded shape-emitter call, with the argument lists of the corresponding
`Renderer` methods (for the rotated rectangle, `sinA`/`cosA` stand for
`Math.sin(angle)`/`Math.cos(angle)`). -/
inductive Cmd where
  | triangle (ax ay au av bx by' bu bv cx cy cu cv r g b a : ℚ)
  | quad (ax ay au av bx by' bu bv cx cy cu cv dx dy du dv r g b a : ℚ)
  | rectangle (x y width height u0 v0 u1 v1 r g b a : ℚ)
  | rectangleOffCenter (x y width height u0 v0 u1 v1 r g b a : ℚ)
  | rotatedRectangleOffCenter (x y width height sinA cosA u0 v0 u1 v1 r g b a : ℚ)
deriving DecidableEq

/-- Dispatch one recorded command to the identically-named `Renderer` emitter
(the `this.renderer[name](...args)` dispatch of `SpriteBatch.end`). -/
def Renderer.applyCmd (s : RendererState) : Cmd → RendererState
  | .triangle ax ay au av bx by' bu bv cx cy cu cv r g b a =>
      Renderer.drawTriangle s ax ay au av bx by' bu bv cx cy cu cv r g b a
  | .quad ax ay au av bx by' bu bv cx cy cu cv dx dy du dv r g b a =>
      Renderer.drawQuad s ax ay au av bx by' bu bv cx cy cu cv dx dy du dv r g b a
  | .rectangle x y width height u0 v0 u1 v1 r g b a =>
      Renderer.drawRectangle s x y width height u0 v0 u1 v1 r g b a
  | .rectangleOffCenter x y width height u0 v0 u1 v1 r g b a =>
      Renderer.drawRectangleOffCenter s x y width height u0 v0 u1 v1 r g b a
  | .rotatedRectangleOffCenter x y width height sinA cosA u0 v0 u1 v1 r g b a =>
      Renderer.drawRotatedRectangleOffCenter s x y width height sinA cosA u0 v0 u1 v1 r g b a

/-- Renderer state right after `beginGeometry` on a fresh renderer: empty scratch
prefix, no draw calls issued. -/
def initState : RendererState := ⟨[], []⟩

/-- The three vertex records one `drawTriangle` call appends. -/
def triVertices (ax ay au av bx by' bu bv cx cy cu cv r g b a : ℚ) : List Vertex :=
  [⟨ax, ay, au, av, r, g, b, a⟩, ⟨bx, by', bu, bv, r, g, b, a⟩, ⟨cx, cy, cu, cv, r, g, b, a⟩]

/-- The six vertex records one `drawQuad` call appends: the two triangles
(a,b,c), (a,c,d) sharing the diagonal a→c. -/
def quadVertices (ax ay au av bx by' bu bv cx cy cu cv dx dy du dv r g b a : ℚ) :
    List Vertex :=
  triVertices ax ay au av bx by' bu bv cx cy cu cv r g b a ++
    triVertices ax ay au av cx cy cu cv dx dy du dv r g b a

/-- Modelled from the spec: the per-call vertex stream of an unbounded-buffer
reference implementation (spec §8: "total emitted vertices and their per-vertex
attributes are identical to an unbounded-buffer reference implementation").  Each
shape contributes its vertices in emission order, with quads decomposed into the
two triangles (a,b,c), (a,c,d) and the rectangle variants into the quad over their
four corners. -/
def refVertices : Cmd → List Vertex
  | .triangle ax ay au av bx by' bu bv cx cy cu cv r g b a =>
      triVertices ax ay au av bx by' bu bv cx cy cu cv r g b a
  | .quad ax ay au av bx by' bu bv cx cy cu cv dx dy du dv r g b a =>
      quadVertices ax ay au av bx by' bu bv cx cy cu cv dx dy du dv r g b a
  | .rectangle x y width height u0 v0 u1 v1 r g b a =>
      quadVertices x y u0 v0 (x + width) y u1 v0 (x + width) (y + height) u1 v1
        x (y + height) u0 v1 r g b a
  | .rectangleOffCenter x y width height u0 v0 u1 v1 r g b a =>
      quadVertices (x - width / 2) (y - height / 2) u0 v0
        (x + width / 2) (y - height / 2) u1 v0
        (x + width / 2) (y + height / 2) u1 v1
        (x - width / 2) (y + height / 2) u0 v1 r g b a
  | .rotatedRectangleOffCenter x y width height sinA cosA u0 v0 u1 v1 r g b a =>
      quadVertices
        (x + cosA * (-(width / 2)) - sinA * (-(height / 2)))
        (y + sinA * (-(width / 2)) + cosA * (-(height / 2))) u0 v0
        (x + cosA * (width / 2) - sinA * (-(height / 2)))
        (y + sinA * (width / 2) + cosA * (-(height / 2))) u1 v0
        (x + cosA * (width / 2) - sinA * (height / 2))
        (y + sinA * (width / 2) + cosA * (height / 2)) u1 v1
        (x + cosA * (-(width / 2)) - sinA * (height / 2))
        (y + sinA * (-(width / 2)) + cosA * (height / 2)) u0 v1 r g b a

/-- Proof-infrastructure view of `drawTriangle`: the flush-check followed by the
three `addVertex` calls, with the three vertex records abstracted.
`Renderer.drawTriangle s ... = triStep s v1 v2 v3` holds by `rfl`. -/
def triStep (s : RendererState) (v1 v2 v3 : Vertex) : RendererState :=
  let s1 := if s.current.length + 3 ≥ Renderer.MAX_VERTICES
    then Renderer.beginGeometry (Renderer.endGeometry s) else s
  Renderer.addVertex (Renderer.addVertex (Renderer.addVertex s1 v1) v2) v3

/-- Uncurried `triStep`, for folding over a triangle decomposition. -/
def tri3 (s : RendererState) (t : Vertex × Vertex × Vertex) : RendererState :=
  triStep s t.1 t.2.1 t.2.2

/-- The two-triangle decomposition of one `drawQuad` call. -/
def quadTris (ax ay au av bx by' bu bv cx cy cu cv dx dy du dv r g b a : ℚ) :
    List (Vertex × Vertex × Vertex) :=
  [(⟨ax, ay, au, av, r, g, b, a⟩, ⟨bx, by', bu, bv, r, g, b, a⟩,
    ⟨cx, cy, cu, cv, r, g, b, a⟩),
   (⟨ax, ay, au, av, r, g, b, a⟩, ⟨cx, cy, cu, cv, r, g, b, a⟩,
    ⟨dx, dy, du, dv, r, g, b, a⟩)]

/-- The triangle decomposition each emitter performs (every emitter is a sequence
of `drawTriangle` calls). -/
def cmdTris : Cmd → List (Vertex × Vertex × Vertex)
  | .triangle ax ay au av bx by' bu bv cx cy cu cv r g b a =>
      [(⟨ax, ay, au, av, r, g, b, a⟩, ⟨bx, by', bu, bv, r, g, b, a⟩,
        ⟨cx, cy, cu, cv, r, g, b, a⟩)]
  | .quad ax ay au av bx by' bu bv cx cy cu cv dx dy du dv r g b a =>
      quadTris ax ay au av bx by' bu bv cx cy cu cv dx dy du dv r g b a
  | .rectangle x y width height u0 v0 u1 v1 r g b a =>
      quadTris x y u0 v0 (x + width) y u1 v0 (x + width) (y + height) u1 v1
        x (y + height) u0 v1 r g b a
  | .rectangleOffCenter x y width height u0 v0 u1 v1 r g b a =>
      quadTris (x - width / 2) (y - height / 2) u0 v0
        (x + width / 2) (y - height / 2) u1 v0
        (x + width / 2) (y + height / 2) u1 v1
        (x - width / 2) (y + height / 2) u0 v1 r g b a
  | .rotatedRectangleOffCenter x y width height sinA cosA u0 v0 u1 v1 r g b a =>
      quadTris
        (x + cosA * (-(width / 2)) - sinA * (-(height / 2)))
        (y + sinA * (-(width / 2)) + cosA * (-(height / 2))) u0 v0
        (x + cosA * (width / 2) - sinA * (-(height / 2)))
        (y + sinA * (width / 2) + cosA * (-(height / 2))) u1 v0
        (x + cosA * (width / 2) - sinA * (height / 2))
        (y + sinA * (width / 2) + cosA * (height / 2)) u1 v1
        (x + cosA * (-(width / 2)) - sinA * (height / 2))
        (y + sinA * (-(width / 2)) + cosA * (height / 2)) u0 v1 r g b a

/-- `createOrthographicOffCenter(left, right, bottom, top, near, far)`: the 16-element
column-major orthographic matrix. -/
def Renderer.createOrthographicOffCenter (left right bottom top near far : ℚ) : List ℚ :=
  let leftRight := 1 / (left - right)
  let bottomTop := 1 / (bottom - top)
  let nearFar := 1 / (near - far)
  let scaleX := -2 * leftRight
  let scaleY := -2 * bottomTop
  let scaleZ := 2 * nearFar
  let translateX := (left + right) * leftRight
  let translateY := (top + bottom) * bottomTop
  let translateZ := (far + near) * nearFar
  [scaleX, 0, 0, 0,
   0, scaleY, 0, 0,
   0, 0, scaleZ, 0,
   translateX, translateY, translateZ, 1]

/-- The projection-related fields of the Renderer touched by `resize`. -/
structure RendererView where
  width : ℚ
  height : ℚ
  matrix : List ℚ
deriving DecidableEq

/-- `resize(width, height)`: stores the new size and recomputes
`this.matrix = createOrthographicOffCenter(0, width, height, 0, -1, 1)`. -/
def Renderer.resize (_s : RendererView) (width height : ℚ) : RendererView :=
  { width := width, height := height,
    matrix := Renderer.createOrthographicOffCenter 0 width height 0 (-1) 1 }

/-- One glyph record: character code, pen advance, local plane offsets (em units)
and normalized atlas UVs.  The source keeps all ten values as JS numbers; the
`charCode` is both the key in `Font.glyphs` and a field of the record. -/
structure Glyph where
  charCode : ℚ
  advance : ℚ
  planeLeft : ℚ
  planeBottom : ℚ
  planeRight : ℚ
  planeTop : ℚ
  atlasLeft : ℚ
  atlasBottom : ℚ
  atlasRight : ℚ
  atlasTop : ℚ
deriving DecidableEq

/-- `Font`: `this.glyphs` is a plain JS object mapping charCode to glyph record,
modelled as an association list with rational keys (one entry per distinct key). -/
structure Font where
  glyphs : List (ℚ × Glyph)
deriving DecidableEq

/-- `font.glyphs[charCode]` lookup; `none` models `undefined`. -/
def Font.glyphAt (f : Font) (charCode : ℚ) : Option Glyph :=
  (f.glyphs.find? (fun p => decide (p.1 = charCode))).map Prod.snd

/-- `this.glyphs[charCode] = glyph`: JS object property assignment — replaces the
entry if the key is present, otherwise adds a new entry. -/
def glyphsInsert (gs : List (ℚ × Glyph)) (key : ℚ) (g : Glyph) : List (ℚ × Glyph) :=
  if gs.any (fun p => decide (p.1 = key)) then
    gs.map (fun p => if p.1 = key then (key, g) else p)
  else gs ++ [(key, g)]

/-- `serializeData()`: a `Float32Array` holding `[glyphs.length]` followed by the
ten fields of each glyph value, in table order. -/
def Font.serializeData (f : Font) : List ℚ :=
  ((f.glyphs.length : ℚ)) :: f.glyphs.flatMap (fun p =>
    [p.2.charCode, p.2.advance, p.2.planeLeft, p.2.planeBottom, p.2.planeRight,
     p.2.planeTop, p.2.atlasLeft, p.2.atlasBottom, p.2.atlasRight, p.2.atlasTop])

/-- `buffer[i]` on the deserialization buffer (reads past the end, which the
round trip never performs, default to 0). -/
def bufferAt (buffer : List ℚ) (i : ℕ) : ℚ := (buffer[i]?).getD 0

/-- The `for (let i = 0; i < count; i++)` body of `deserializeData`: read ten
consecutive floats starting at `index`, store the glyph under the read
`charCode`, continue at `index + 10`. -/
def Font.deserializeLoop (buffer : List ℚ) : ℕ → ℕ → List (ℚ × Glyph) → List (ℚ × Glyph)
  | _, 0, gs => gs
  | index, n + 1, gs =>
      let charCode := bufferAt buffer index
      let g : Glyph :=
        ⟨charCode, bufferAt buffer (index + 1), bufferAt buffer (index + 2),
         bufferAt buffer (index + 3), bufferAt buffer (index + 4),
         bufferAt buffer (index + 5), bufferAt buffer (index + 6),
         bufferAt buffer (index + 7), bufferAt buffer (index + 8),
         bufferAt buffer (index + 9)⟩
      Font.deserializeLoop buffer (index + 10) n (glyphsInsert gs charCode g)

/-- `deserializeData(data)`: reads `count = buffer[0]` and loops `count` times
reading one glyph per iteration (a JS `for` with a float bound runs
`max 0 ⌈count⌉` iterations), inserting into the receiver's glyph table. -/
def Font.deserializeData (f : Font) (data : List ℚ) : Font :=
  let count := bufferAt data 0
  ⟨Font.deserializeLoop data 1 (⌈count⌉.toNat) f.glyphs⟩

/-- `measureString(font, str, size)`: sum `size * glyph.advance` over the
characters of `str` (given as their `charCodeAt` values) that have a glyph;
characters without a glyph are skipped. -/
def Renderer.measureString (font : Font) (str : List ℚ) (size : ℚ) : ℚ :=
  str.foldl (fun width charCode =>
    match font.glyphAt charCode with
    | none => width
    | some glyph => width + size * glyph.advance) 0

/-- `drawChar(font, x, y, charCode, size, r, g, b, a)`: no glyph — return
unchanged; otherwise emit one rectangle from the glyph's plane offsets and
atlas UVs. -/
def Renderer.drawChar (s : RendererState) (font : Font)
    (x y charCode size r g b a : ℚ) : RendererState :=
  match font.glyphAt charCode with
  | none => s
  | some glyph =>
      Renderer.drawRectangle s (x + size * glyph.planeLeft) (y + size * glyph.planeTop)
        (size * (glyph.planeRight - glyph.planeLeft))
        (size * (glyph.planeBottom - glyph.planeTop))
        glyph.atlasLeft glyph.atlasTop glyph.atlasRight glyph.atlasBottom r g b a

/-- `drawString(font, x, y, str, size, r, g, b, a)`: per character, skip if no
glyph, else `drawChar` at `x + offset` and advance `offset` by
`size * glyph.advance`.  The pair returned is the renderer state together with
the final value of the local `offset` accumulator (the total pen advance). -/
def Renderer.drawString (s : RendererState) (font : Font) (x y : ℚ)
    (str : List ℚ) (size r g b a : ℚ) : RendererState × ℚ :=
  str.foldl (fun acc charCode =>
    match font.glyphAt charCode with
    | none => acc
    | some glyph =>
        (Renderer.drawChar acc.1 font (x + acc.2) y charCode size r g b a,
         acc.2 + size * glyph.advance)) (s, 0)

/-- `SpriteBatch.begin()` / `end()` replay state: `buckets` is a JS `Map` from
texture to its ordered command list; `Map` iteration follows key-insertion
order, so an association list (textures as numeric ids) models it exactly. -/
structure SpriteBatchState where
  buckets : List (ℕ × List Cmd)
deriving DecidableEq

/-- `begin()`: `this.buckets.clear()`. -/
def SpriteBatch.beginBatch (_sb : SpriteBatchState) : SpriteBatchState := ⟨[]⟩

/-- `addCommand(texture, name, args)`: push onto the texture's bucket if present,
else create the bucket at the end of the map. -/
def SpriteBatch.addCommand (sb : SpriteBatchState) (texture : ℕ) (c : Cmd) :
    SpriteBatchState :=
  if sb.buckets.any (fun b => decide (b.1 = texture)) then
    ⟨sb.buckets.map (fun b => if b.1 = texture then (b.1, b.2 ++ [c]) else b)⟩
  else ⟨sb.buckets ++ [(texture, [c])]⟩

/-- The per-bucket body of `SpriteBatch.end()`:
`renderer.beginGeometry(); replay commands; renderer.endGeometry()`. -/
def Renderer.replayBucket (rs : RendererState) (cmds : List Cmd) : RendererState :=
  Renderer.endGeometry (cmds.foldl Renderer.applyCmd (Renderer.beginGeometry rs))

/-- `end()`: iterate the buckets in map order; for each, bind the texture (logged
in the first component) and replay its commands through the renderer.  The
buckets field is only read, never written, by `end()`. -/
def SpriteBatch.endBatch (sb : SpriteBatchState) (rs : RendererState) :
    List ℕ × RendererState :=
  sb.buckets.foldl
    (fun acc bucket => (acc.1 ++ [bucket.1], Renderer.replayBucket acc.2 bucket.2))
    ([], rs)

/-- A GPU-resource wrapper's lifetime state: `handle` is the underlying resource
handle, `none` once deleted (`this.handle = null`).  The seven wrapper classes
(Renderbuffer, Framebuffer, Shader, ShaderProgram, Texture, Buffer, VertexArray)
share this exact `delete()` shape, differing only in which `context.deleteX`
release primitive is invoked. -/
structure GpuHandle where
  id : ℕ
  handle : Option ℕ
deriving DecidableEq

/-- `delete()`: `if (handle !== null) { context.deleteX(handle); this.handle = null; }`.
The boolean records whether the underlying release primitive was invoked. -/
def GpuHandle.deleteRes (w : GpuHandle) : GpuHandle × Bool :=
  match w.handle with
  | some _ => ({ w with handle := none }, true)
  | none => (w, false)

/-- `Framebuffer` ownership state: its own handle plus at most one attachment
(a Texture or a Renderbuffer, both GPU-handle wrappers). -/
structure FramebufferState where
  handle : Option ℕ
  attachment : Option GpuHandle
deriving DecidableEq

/-- `attachTexture(texture)`: capture the previous `this.attachment`, attach and
store the new texture, then call `delete()` on the captured previous attachment
(`attachment?.delete()`).  The second component is the previous attachment after
its deletion (`none` when there was none). -/
def Framebuffer.attachTexture (fb : FramebufferState) (texture : GpuHandle) :
    FramebufferState × Option GpuHandle :=
  let old := fb.attachment
  ({ fb with attachment := some texture }, old.map (fun w => (GpuHandle.deleteRes w).1))

/-- `attachRenderbuffer(renderbuffer)`: same protocol as `attachTexture`. -/
def Framebuffer.attachRenderbuffer (fb : FramebufferState) (renderbuffer : GpuHandle) :
    FramebufferState × Option GpuHandle :=
  let old := fb.attachment
  ({ fb with attachment := some renderbuffer },
   old.map (fun w => (GpuHandle.deleteRes w).1))

/-- The sprite-batch state built by `begin()` followed by one recorded
`drawX(texture, ...)` call per element of `recorded`, in order. -/
def buildSB (recorded : List (ℕ × Cmd)) : SpriteBatchState :=
  recorded.foldl (fun sb p => SpriteBatch.addCommand sb p.1 p.2) ⟨[]⟩

/-- The command list of the bucket keyed by `t` (empty if no such bucket). -/
def bucketOf (sb : SpriteBatchState) (t : ℕ) : List Cmd :=
  ((sb.buckets.find? (fun b => decide (b.1 = t))).map Prod.snd).getD []

/-- The texture keys of the buckets, in map-insertion order. -/
def keysOf (sb : SpriteBatchState) : List ℕ := sb.buckets.map Prod.fst

/-! ### Proof infrastructure: the renderer's emitted vertex stream -/

/-- All vertex records the renderer has committed: flushed batches followed by
the live scratch prefix. -/
def RendererState.stream (s : RendererState) : List Vertex :=
  s.draws.flatten ++ s.current

lemma endGeometry_draws (s : RendererState) :
    (Renderer.endGeometry s).draws =
      s.draws ++ (if s.current.length = 0 then [] else [s.current]) := by
  unfold Renderer.endGeometry
  by_cases h : s.current.length = 0 <;> simp [h]

lemma endGeometry_flatten (s : RendererState) :
    (Renderer.endGeometry s).draws.flatten = s.stream := by
  unfold Renderer.endGeometry RendererState.stream
  by_cases h : s.current.length = 0
  · have : s.current = [] := List.length_eq_zero.mp h
    simp [h, this]
  · simp [h]

lemma triStep_flush (s : RendererState) (v1 v2 v3 : Vertex)
    (h : s.current.length + 3 ≥ Renderer.MAX_VERTICES) :
    triStep s v1 v2 v3 = ⟨[v1, v2, v3], s.draws ++ [s.current]⟩ := by
  have hne : ¬ s.current.length = 0 := by
    unfold Renderer.MAX_VERTICES at h; omega
  unfold triStep
  simp [h, Renderer.endGeometry, Renderer.beginGeometry, Renderer.addVertex, hne]

lemma triStep_noflush (s : RendererState) (v1 v2 v3 : Vertex)
    (h : ¬ (s.current.length + 3 ≥ Renderer.MAX_VERTICES)) :
    triStep s v1 v2 v3 = ⟨s.current ++ [v1, v2, v3], s.draws⟩ := by
  unfold triStep
  simp [h, Renderer.addVertex]

lemma triStep_flush_mk (cur : List Vertex) (draws : List (List Vertex))
    (v1 v2 v3 : Vertex) (h : cur.length + 3 ≥ Renderer.MAX_VERTICES) :
    triStep ⟨cur, draws⟩ v1 v2 v3 = ⟨[v1, v2, v3], draws ++ [cur]⟩ :=
  triStep_flush ⟨cur, draws⟩ v1 v2 v3 h

lemma triStep_noflush_mk (cur : List Vertex) (draws : List (List Vertex))
    (v1 v2 v3 : Vertex) (h : ¬ (cur.length + 3 ≥ Renderer.MAX_VERTICES)) :
    triStep ⟨cur, draws⟩ v1 v2 v3 = ⟨cur ++ [v1, v2, v3], draws⟩ :=
  triStep_noflush ⟨cur, draws⟩ v1 v2 v3 h

lemma triStep_stream (s : RendererState) (v1 v2 v3 : Vertex) :
    (triStep s v1 v2 v3).stream = s.stream ++ [v1, v2, v3] := by
  by_cases h : s.current.length + 3 ≥ Renderer.MAX_VERTICES
  · rw [triStep_flush s v1 v2 v3 h]
    simp [RendererState.stream]
  · rw [triStep_noflush s v1 v2 v3 h]
    simp [RendererState.stream]

lemma tri3_stream (s : RendererState) (t : Vertex × Vertex × Vertex) :
    (tri3 s t).stream = s.stream ++ [t.1, t.2.1, t.2.2] :=
  triStep_stream s t.1 t.2.1 t.2.2

lemma foldl_tri3_stream (ts : List (Vertex × Vertex × Vertex)) (s : RendererState) :
    (ts.foldl tri3 s).stream =
      s.stream ++ ts.flatMap (fun t => [t.1, t.2.1, t.2.2]) := by
  induction ts generalizing s with
  | nil => simp
  | cons t ts ih =>
      rw [List.foldl_cons, ih, tri3_stream]
      simp

lemma applyCmd_eq (s : RendererState) (c : Cmd) :
    Renderer.applyCmd s c = (cmdTris c).foldl tri3 s := by
  cases c <;> rfl

lemma refVertices_eq (c : Cmd) :
    refVertices c = (cmdTris c).flatMap (fun t => [t.1, t.2.1, t.2.2]) := by
  cases c <;> rfl

lemma foldl_applyCmd_eq (cmds : List Cmd) (s : RendererState) :
    cmds.foldl Renderer.applyCmd s = (cmds.flatMap cmdTris).foldl tri3 s := by
  induction cmds generalizing s with
  | nil => rfl
  | cons c cmds ih =>
      rw [List.foldl_cons, ih, applyCmd_eq, List.flatMap_cons, List.foldl_append]

lemma flatMap_cmdTris (cmds : List Cmd) :
    (cmds.flatMap cmdTris).flatMap (fun t => [t.1, t.2.1, t.2.2]) =
      cmds.flatMap refVertices := by
  induction cmds with
  | nil => rfl
  | cons c cmds ih =>
      simp only [List.flatMap_cons, List.flatMap_append, ih, refVertices_eq]

lemma foldl_applyCmd_stream (cmds : List Cmd) (s : RendererState) :
    (cmds.foldl Renderer.applyCmd s).stream = s.stream ++ cmds.flatMap refVertices := by
  rw [foldl_applyCmd_eq, foldl_tri3_stream, flatMap_cmdTris]

lemma replayBucket_flatten_init (cmds : List Cmd) :
    (Renderer.replayBucket initState cmds).draws.flatten = cmds.flatMap refVertices := by
  unfold Renderer.replayBucket
  rw [endGeometry_flatten, foldl_applyCmd_stream]
  rfl

/-! ### Proof infrastructure: locality of the emitters in the draw log -/

lemma triStep_local (s : RendererState) (v1 v2 v3 : Vertex) :
    triStep s v1 v2 v3 =
      ⟨(triStep ⟨s.current, []⟩ v1 v2 v3).current,
       s.draws ++ (triStep ⟨s.current, []⟩ v1 v2 v3).draws⟩ := by
  by_cases h : s.current.length + 3 ≥ Renderer.MAX_VERTICES
  · rw [triStep_flush s v1 v2 v3 h, triStep_flush ⟨s.current, []⟩ v1 v2 v3 h]
    simp
  · rw [triStep_noflush s v1 v2 v3 h, triStep_noflush ⟨s.current, []⟩ v1 v2 v3 h]
    simp

lemma tri3_local (s : RendererState) (t : Vertex × Vertex × Vertex) :
    tri3 s t =
      ⟨(tri3 ⟨s.current, []⟩ t).current, s.draws ++ (tri3 ⟨s.current, []⟩ t).draws⟩ :=
  triStep_local s t.1 t.2.1 t.2.2

lemma foldl_tri3_local (ts : List (Vertex × Vertex × Vertex)) (s : RendererState) :
    ts.foldl tri3 s =
      ⟨(ts.foldl tri3 ⟨s.current, []⟩).current,
       s.draws ++ (ts.foldl tri3 ⟨s.current, []⟩).draws⟩ := by
  induction ts generalizing s with
  | nil => simp
  | cons t ts ih =>
      rw [List.foldl_cons, List.foldl_cons, ih (tri3 s t), ih (tri3 ⟨s.current, []⟩ t),
        tri3_local s t]
      simp

lemma foldl_applyCmd_local (cmds : List Cmd) (s : RendererState) :
    cmds.foldl Renderer.applyCmd s =
      ⟨(cmds.foldl Renderer.applyCmd ⟨s.current, []⟩).current,
       s.draws ++ (cmds.foldl Renderer.applyCmd ⟨s.current, []⟩).draws⟩ := by
  rw [foldl_applyCmd_eq, foldl_applyCmd_eq]
  exact foldl_tri3_local (cmds.flatMap cmdTris) s

lemma replayBucket_draws (rs : RendererState) (cmds : List Cmd) :
    (Renderer.replayBucket rs cmds).draws =
      rs.draws ++ (Renderer.replayBucket initState cmds).draws := by
  unfold Renderer.replayBucket
  have hb : Renderer.beginGeometry rs = ⟨[], rs.draws⟩ := rfl
  have hb0 : Renderer.beginGeometry initState = (⟨[], []⟩ : RendererState) := rfl
  rw [hb, hb0, foldl_applyCmd_local cmds ⟨[], rs.draws⟩, endGeometry_draws, endGeometry_draws]
  simp

/-! ### Proof infrastructure: a flush boundary splitting a quad (claim C2) -/

/-- The all-zero vertex record. -/
def v0 : Vertex := ⟨0, 0, 0, 0, 0, 0, 0, 0⟩

/-- A `drawTriangle` call with all-zero arguments. -/
def cexTriangle : Cmd := .triangle 0 0 0 0 0 0 0 0 0 0 0 0 0 0 0 0

/-- A `drawQuad` call with all-zero arguments. -/
def cexQuad : Cmd := .quad 0 0 0 0 0 0 0 0 0 0 0 0 0 0 0 0 0 0 0 0

lemma foldl_cexTriangle (n : ℕ) (h : 3 * n ≤ 65532) :
    (List.replicate n cexTriangle).foldl Renderer.applyCmd initState =
      ⟨List.replicate (3 * n) v0, []⟩ := by
  induction n with
  | zero => rfl
  | succ n ih =>
      have h' : 3 * n ≤ 65532 := by omega
      rw [List.replicate_succ', List.foldl_append, ih h']
      have hcond :
          ¬ ((List.replicate (3 * n) v0).length + 3 ≥ Renderer.MAX_VERTICES) := by
        simp only [List.length_replicate, Renderer.MAX_VERTICES]
        omega
      have hstep :
          Renderer.applyCmd ⟨List.replicate (3 * n) v0, []⟩ cexTriangle =
            ⟨List.replicate (3 * n) v0 ++ [v0, v0, v0], []⟩ :=
        triStep_noflush_mk (List.replicate (3 * n) v0) [] v0 v0 v0 hcond
      simp only [List.foldl_cons, List.foldl_nil, hstep]
      rw [show [v0, v0, v0] = List.replicate 3 v0 from rfl,
        show 3 * (n + 1) = 3 * n + 3 by ring, List.replicate_add]

lemma applyCmd_cexQuad_split :
    Renderer.applyCmd ⟨List.replicate 65529 v0, []⟩ cexQuad =
      ⟨[v0, v0, v0], [List.replicate 65532 v0]⟩ := by
  have hct : cmdTris cexQuad = [(v0, v0, v0), (v0, v0, v0)] := rfl
  have htri : ∀ s : RendererState, tri3 s (v0, v0, v0) = triStep s v0 v0 v0 :=
    fun _ => rfl
  have hc1 : ¬ ((List.replicate 65529 v0).length + 3 ≥ Renderer.MAX_VERTICES) := by
    simp only [List.length_replicate, Renderer.MAX_VERTICES]
    omega
  have h2 : triStep ⟨List.replicate 65529 v0, []⟩ v0 v0 v0 =
      ⟨List.replicate 65532 v0, []⟩ := by
    rw [triStep_noflush_mk (List.replicate 65529 v0) [] v0 v0 v0 hc1,
      show [v0, v0, v0] = List.replicate 3 v0 from rfl,
      show (65532 : ℕ) = 65529 + 3 by norm_num, ← List.replicate_add]
  have hc2 : (List.replicate 65532 v0).length + 3 ≥ Renderer.MAX_VERTICES := by
    simp only [List.length_replicate, Renderer.MAX_VERTICES]
    omega
  rw [applyCmd_eq, hct, List.foldl_cons, List.foldl_cons, List.foldl_nil, htri, htri,
    h2, triStep_flush_mk (List.replicate 65532 v0) [] v0 v0 v0 hc2, List.nil_append]

/-! ### Proof infrastructure: SpriteBatch end() fold and buckets -/

lemma endBatch_foldl_fst (bs : List (ℕ × List Cmd)) (acc : List ℕ) (rs : RendererState) :
    (bs.foldl
      (fun acc bucket => (acc.1 ++ [bucket.1], Renderer.replayBucket acc.2 bucket.2))
      (acc, rs)).1 = acc ++ bs.map Prod.fst := by
  induction bs generalizing acc rs with
  | nil => simp
  | cons b bs ih =>
      rw [List.foldl_cons, ih]
      simp

lemma endBatch_foldl_draws (bs : List (ℕ × List Cmd)) (acc : List ℕ) (rs : RendererState) :
    (bs.foldl
      (fun acc bucket => (acc.1 ++ [bucket.1], Renderer.replayBucket acc.2 bucket.2))
      (acc, rs)).2.draws =
      rs.draws ++ bs.flatMap (fun b => (Renderer.replayBucket initState b.2).draws) := by
  induction bs generalizing acc rs with
  | nil => simp
  | cons b bs ih =>
      rw [List.foldl_cons, ih, replayBucket_draws]
      simp

lemma endBatch_fst (sb : SpriteBatchState) (rs : RendererState) :
    (SpriteBatch.endBatch sb rs).1 = keysOf sb := by
  unfold SpriteBatch.endBatch keysOf
  rw [endBatch_foldl_fst]
  simp

lemma endBatch_snd_draws (sb : SpriteBatchState) (rs : RendererState) :
    (SpriteBatch.endBatch sb rs).2.draws =
      rs.draws ++ sb.buckets.flatMap
        (fun bucket => (Renderer.replayBucket initState bucket.2).draws) := by
  unfold SpriteBatch.endBatch
  rw [endBatch_foldl_draws]

lemma find?_map_keeps_key (l : List (ℕ × List Cmd)) (tex t : ℕ) (c : Cmd) :
    (l.map (fun b => if b.1 = tex then (b.1, b.2 ++ [c]) else b)).find?
        (fun b => decide (b.1 = t)) =
      (l.find? (fun b => decide (b.1 = t))).map
        (fun b => if b.1 = tex then (b.1, b.2 ++ [c]) else b) := by
  induction l with
  | nil => rfl
  | cons b l ih =>
      have hfst : (if b.1 = tex then (b.1, b.2 ++ [c]) else b).1 = b.1 := by
        by_cases hbtex : b.1 = tex <;> simp [hbtex]
      simp only [List.map_cons, List.find?_cons, hfst]
      cases hb : decide (b.1 = t) with
      | false => simp only [hb, ih]
      | true => simp only [hb, Option.map_some']

lemma any_key_iff (l : List (ℕ × List Cmd)) (tex : ℕ) :
    (l.any (fun b => decide (b.1 = tex)) = true) ↔ tex ∈ l.map Prod.fst := by
  simp only [List.any_eq_true, decide_eq_true_eq, List.mem_map]

lemma bucketOf_add (sb : SpriteBatchState) (tex : ℕ) (c : Cmd) (t : ℕ) :
    bucketOf (SpriteBatch.addCommand sb tex c) t =
      if tex = t then bucketOf sb t ++ [c] else bucketOf sb t := by
  unfold SpriteBatch.addCommand bucketOf
  by_cases hany : sb.buckets.any (fun b => decide (b.1 = tex)) = true
  · rw [if_pos hany]
    simp only
    rw [find?_map_keeps_key]
    rcases hfind : sb.buckets.find? (fun b => decide (b.1 = t)) with _ | b
    · -- no bucket for t: if t = tex this contradicts hany?  no: find? for t, not tex.
      by_cases htex : tex = t
      · subst htex
        rw [any_key_iff] at hany
        exfalso
        rcases List.mem_map.mp hany with ⟨b, hb, hfst⟩
        have : sb.buckets.find? (fun b => decide (b.1 = tex)) ≠ none := by
          rw [Ne, List.find?_eq_none]
          intro hall
          exact absurd (by simpa using hfst) (by simpa using hall b hb)
        exact this hfind
      · simp [htex, hfind]
    · have hbt : b.1 = t := by
        have := List.find?_some hfind
        simpa using this
      by_cases htex : tex = t
      · subst htex
        simp [hfind, hbt]
      · have : ¬ (b.1 = tex) := by rw [hbt]; exact fun h => htex h.symm
        simp [hfind, this, htex]
  · rw [if_neg hany]
    simp only
    rw [List.find?_append]
    by_cases htex : tex = t
    · subst htex
      have hnone : sb.buckets.find? (fun b => decide (b.1 = tex)) = none := by
        rw [List.find?_eq_none]
        intro b hb
        simp only [decide_eq_true_eq]
        intro hfst
        exact hany (List.any_eq_true.mpr ⟨b, hb, by simpa using hfst⟩)
      simp [hnone]
    · rcases hfind : sb.buckets.find? (fun b => decide (b.1 = t)) with _ | b
      · simp [hfind, htex, Ne.symm htex]
      · simp [hfind, htex]

lemma bucketOf_buildSB_fold (recorded : List (ℕ × Cmd)) (sb : SpriteBatchState) (t : ℕ) :
    bucketOf
        (recorded.foldl (fun sb p => SpriteBatch.addCommand sb p.1 p.2) sb) t =
      bucketOf sb t ++ (recorded.filter (fun p => decide (p.1 = t))).map Prod.snd := by
  induction recorded generalizing sb with
  | nil => simp
  | cons p recorded ih =>
      rw [List.foldl_cons, ih, bucketOf_add]
      by_cases hpt : p.1 = t
      · simp [hpt, List.filter_cons]
      · simp [hpt, List.filter_cons]

lemma keysOf_add (sb : SpriteBatchState) (tex : ℕ) (c : Cmd) :
    keysOf (SpriteBatch.addCommand sb tex c) =
      if tex ∈ keysOf sb then keysOf sb else keysOf sb ++ [tex] := by
  unfold SpriteBatch.addCommand keysOf
  by_cases hany : sb.buckets.any (fun b => decide (b.1 = tex)) = true
  · rw [if_pos hany, if_pos ((any_key_iff sb.buckets tex).mp hany)]
    simp only [List.map_map]
    congr 1
    funext b
    by_cases hb : b.1 = tex <;> simp [hb]
  · rw [if_neg hany,
      if_neg (fun hmem => hany ((any_key_iff sb.buckets tex).mpr hmem))]
    simp

lemma keysOf_buildSB_mem (recorded : List (ℕ × Cmd)) (sb : SpriteBatchState) (t : ℕ) :
    t ∈ keysOf (recorded.foldl (fun sb p => SpriteBatch.addCommand sb p.1 p.2) sb) ↔
      t ∈ keysOf sb ∨ t ∈ recorded.map Prod.fst := by
  induction recorded generalizing sb with
  | nil => simp
  | cons p recorded ih =>
      rw [List.foldl_cons, ih, keysOf_add]
      by_cases hmem : p.1 ∈ keysOf sb
      · rw [if_pos hmem]
        simp only [List.map_cons, List.mem_cons]
        constructor
        · intro h
          tauto
        · rintro (h | h | h)
          · exact Or.inl h
          · subst h
            exact Or.inl hmem
          · exact Or.inr h
      · rw [if_neg hmem]
        simp only [List.mem_append, List.map_cons, List.mem_cons, List.mem_singleton]
        tauto

lemma keysOf_buildSB_nodup (recorded : List (ℕ × Cmd)) (sb : SpriteBatchState)
    (hnd : (keysOf sb).Nodup) :
    (keysOf (recorded.foldl (fun sb p => SpriteBatch.addCommand sb p.1 p.2) sb)).Nodup := by
  induction recorded generalizing sb with
  | nil => exact hnd
  | cons p recorded ih =>
      rw [List.foldl_cons]
      apply ih
      rw [keysOf_add]
      by_cases hmem : p.1 ∈ keysOf sb
      · rwa [if_pos hmem]
      · rw [if_neg hmem]
        simp [List.nodup_append, hnd, hmem]

lemma foldl_addVertex (vs : List Vertex) (s : RendererState) :
    vs.foldl Renderer.addVertex s = ⟨s.current ++ vs, s.draws⟩ := by
  induction vs generalizing s with
  | nil => simp
  | cons v vs ih =>
      rw [List.foldl_cons, ih]
      simp [Renderer.addVertex]

/-! ### The claims -/

/-- C1: for any sequence of shape-emitter calls, the vertex stream written into
the Mesh — the concatenation, in order, of all draw-call batches issued by
auto-flushes and by the final `endGeometry` — is identical (all 8 per-vertex
floats, in order) to the stream an unbounded-buffer reference implementation
(`refVertices`) would produce; only the partitioning into draw calls differs.
Stated for every command sequence, which subsumes the sequences whose cumulative
vertex count exceeds `MAX_VERTICES`. -/
theorem spec_C1 (cmds : List Cmd) :
    (Renderer.endGeometry (cmds.foldl Renderer.applyCmd initState)).draws.flatten =
      cmds.flatMap refVertices := by
  rw [endGeometry_flatten, foldl_applyCmd_stream]
  rfl

/-- C2 counterexample: after 21843 zero-argument `drawTriangle` calls (65529
accumulated vertices), one `drawQuad` call splits across a flush boundary: the
batch flushed during the quad contains the quad's first triangle (it equals
neither the previous draw log nor the log extended by just the previously
accumulated vertices), so the quad's six vertices do not land in one draw
batch. -/
theorem spec_C2_counterexample :
    ¬ ((Renderer.applyCmd
          ((List.replicate 21843 cexTriangle).foldl Renderer.applyCmd initState)
          cexQuad).draws =
        ((List.replicate 21843 cexTriangle).foldl Renderer.applyCmd initState).draws ∨
      (Renderer.applyCmd
          ((List.replicate 21843 cexTriangle).foldl Renderer.applyCmd initState)
          cexQuad).draws =
        ((List.replicate 21843 cexTriangle).foldl Renderer.applyCmd initState).draws ++
          [((List.replicate 21843 cexTriangle).foldl Renderer.applyCmd
              initState).current]) := by
  have hs : (List.replicate 21843 cexTriangle).foldl Renderer.applyCmd initState =
      ⟨List.replicate 65529 v0, []⟩ := by
    have h := foldl_cexTriangle 21843 (by norm_num)
    rwa [show 3 * 21843 = 65529 by norm_num] at h
  rw [hs, applyCmd_cexQuad_split,
    show (⟨[v0, v0, v0], [List.replicate 65532 v0]⟩ : RendererState).draws =
      [List.replicate 65532 v0] from rfl,
    show (⟨List.replicate 65529 v0, []⟩ : RendererState).draws =
      ([] : List (List Vertex)) from rfl,
    show (⟨List.replicate 65529 v0, []⟩ : RendererState).current =
      List.replicate 65529 v0 from rfl,
    List.nil_append]
  rintro (h | h)
  · exact List.cons_ne_nil _ _ h
  · have h' : List.replicate 65532 v0 = List.replicate 65529 v0 := by
      injection h
    have hlen := congrArg List.length h'
    rw [List.length_replicate, List.length_replicate] at hlen
    omega

/-- C2 (amended): `drawTriangle` checks the remaining capacity before emitting
and flushes (ends the batch and begins a new one) when `vertexCount + 3`
would reach or exceed `MAX_VERTICES`, so one triangle's three vertices always
land in the same draw batch and a flushed batch consists exactly of the
previously accumulated vertices.  The multi-triangle emitters (`drawQuad` and
the rectangle variants) perform no whole-shape check — each of their two
triangles checks independently — so an auto-flush boundary can fall between
the two triangles of a single quad or rectangle (see the counterexample). -/
theorem spec_C2_amended (s : RendererState)
    (ax ay au av bx by' bu bv cx cy cu cv r g b a : ℚ) :
    (Renderer.drawTriangle s ax ay au av bx by' bu bv cx cy cu cv r g b a =
        ⟨s.current ++ triVertices ax ay au av bx by' bu bv cx cy cu cv r g b a,
         s.draws⟩)
    ∨ (Renderer.drawTriangle s ax ay au av bx by' bu bv cx cy cu cv r g b a =
        ⟨triVertices ax ay au av bx by' bu bv cx cy cu cv r g b a,
         s.draws ++ [s.current]⟩) := by
  by_cases h : s.current.length + 3 ≥ Renderer.MAX_VERTICES
  · exact Or.inr (triStep_flush s _ _ _ h)
  · exact Or.inl (triStep_noflush s _ _ _ h)

/-- C3: after `beginGeometry` and `n` `addVertex` calls with
`0 < n ≤ MAX_VERTICES`, `endGeometry` issues exactly one draw call covering
exactly those `n` vertices (uploaded from the start of the scratch buffer);
for `n = 0` it is a no-op issuing no upload and no draw call. -/
theorem spec_C3 (s : RendererState) (vs : List Vertex)
    (hle : vs.length ≤ Renderer.MAX_VERTICES) :
    (0 < vs.length →
      Renderer.endGeometry (vs.foldl Renderer.addVertex (Renderer.beginGeometry s)) =
        ⟨vs, s.draws ++ [vs]⟩)
    ∧ (vs.length = 0 →
      Renderer.endGeometry (vs.foldl Renderer.addVertex (Renderer.beginGeometry s)) =
        Renderer.beginGeometry s) := by
  have hf : vs.foldl Renderer.addVertex (Renderer.beginGeometry s) = ⟨vs, s.draws⟩ := by
    rw [foldl_addVertex]
    rfl
  constructor
  · intro hpos
    rw [hf]
    unfold Renderer.endGeometry
    have hne : ¬ ((⟨vs, s.draws⟩ : RendererState).current.length = 0) := by
      show ¬ (vs.length = 0)
      omega
    rw [if_neg hne]
  · intro h0
    have hvs : vs = [] := List.length_eq_zero.mp h0
    subst hvs
    rw [hf]
    unfold Renderer.endGeometry
    rw [if_pos (show (([] : List Vertex)).length = 0 from rfl)]
    rfl

/-- C3 witness at a single-vertex sequence. -/
theorem spec_C3_witness :
    Renderer.endGeometry ([v0].foldl Renderer.addVertex (Renderer.beginGeometry initState)) =
      ⟨[v0], [[v0]]⟩ :=
  (spec_C3 initState [v0] (by norm_num [Renderer.MAX_VERTICES])).1 (by norm_num)

/-- C4 counterexample: at `resize(2, 2)` the matrix diagonal entries are
`1` and `-1`, not `-2/2 = -1` and `2/2 = 1` as claimed — the claimed signs are
swapped. -/
theorem spec_C4_counterexample :
    ¬ ((Renderer.resize ⟨1, 1, []⟩ 2 2).matrix[0]? = some ((-2 : ℚ) / 2) ∧
       (Renderer.resize ⟨1, 1, []⟩ 2 2).matrix[5]? = some ((2 : ℚ) / 2)) := by
  intro hcl
  have h0 : (Renderer.resize ⟨1, 1, []⟩ 2 2).matrix[0]? =
      some (-2 * (1 / ((0 : ℚ) - 2))) := rfl
  rw [h0] at hcl
  have h1 := hcl.1
  simp only [Option.some.injEq] at h1
  norm_num at h1

/-- C4 (amended): for `width, height > 0`, after `resize(width, height)` the
matrix diagonal entries are `matrix[0] = 2/width` and `matrix[5] = -2/height`
(the claim has the two signs swapped); the Y-flip (top-left origin) is the
negative Y scale. -/
theorem spec_C4_amended (s : RendererView) (width height : ℚ)
    (hw : 0 < width) (hh : 0 < height) :
    (Renderer.resize s width height).matrix[0]? = some (2 / width) ∧
    (Renderer.resize s width height).matrix[5]? = some (-2 / height) := by
  have h0 : (Renderer.resize s width height).matrix[0]? =
      some (-2 * (1 / (0 - width))) := rfl
  have h5 : (Renderer.resize s width height).matrix[5]? =
      some (-2 * (1 / (height - 0))) := rfl
  have hwne : width ≠ 0 := ne_of_gt hw
  have hhne : height ≠ 0 := ne_of_gt hh
  rw [h0, h5]
  constructor
  · simp only [Option.some.injEq]
    field_simp
  · simp only [Option.some.injEq]
    field_simp

/-- C4 witness at `resize(2, 2)`. -/
theorem spec_C4_witness :
    (Renderer.resize ⟨1, 1, []⟩ 2 2).matrix[0]? = some ((2 : ℚ) / 2) ∧
    (Renderer.resize ⟨1, 1, []⟩ 2 2).matrix[5]? = some ((-2 : ℚ) / 2) :=
  spec_C4_amended ⟨1, 1, []⟩ 2 2 (by norm_num) (by norm_num)

/-- C5: replaying a recorded command list through `SpriteBatch.end()`:
(1) every texture that was recorded is bound exactly once, textures never
recorded are never bound; (2) the bucket of each texture holds exactly the
commands recorded against it, in recording order — so for two commands against
the same texture the earlier one is replayed first; (3) the renderer's draw log
grows by the per-bucket draw batches, in bucket order; (4) the vertex stream
emitted while a texture is bound is exactly its bucket's commands' reference
vertices, in order — hence c1's vertices precede c2's in the Mesh. -/
theorem spec_C5 (recorded : List (ℕ × Cmd)) (rs : RendererState) :
    (∀ t, (SpriteBatch.endBatch (buildSB recorded) rs).1.count t =
        if t ∈ recorded.map Prod.fst then 1 else 0)
    ∧ (∀ t, bucketOf (buildSB recorded) t =
        (recorded.filter (fun p => decide (p.1 = t))).map Prod.snd)
    ∧ (SpriteBatch.endBatch (buildSB recorded) rs).2.draws =
        rs.draws ++ (buildSB recorded).buckets.flatMap
          (fun bucket => (Renderer.replayBucket initState bucket.2).draws)
    ∧ (∀ t,
        (Renderer.replayBucket initState (bucketOf (buildSB recorded) t)).draws.flatten =
          (bucketOf (buildSB recorded) t).flatMap refVertices) := by
  refine ⟨?_, ?_, endBatch_snd_draws _ _, fun t => replayBucket_flatten_init _⟩
  · intro t
    rw [endBatch_fst]
    unfold buildSB
    have hmem := keysOf_buildSB_mem recorded ⟨[]⟩ t
    have hnd := keysOf_buildSB_nodup recorded ⟨[]⟩ (by simp [keysOf])
    by_cases h : t ∈ recorded.map Prod.fst
    · rw [if_pos h]
      exact List.count_eq_one_of_mem hnd (hmem.mpr (Or.inr h))
    · rw [if_neg h]
      apply List.count_eq_zero_of_not_mem
      intro hmem'
      rcases hmem.mp hmem' with h' | h'
      · simp [keysOf] at h'
      · exact h h'
  · intro t
    unfold buildSB
    rw [bucketOf_buildSB_fold]
    simp [bucketOf]

/-- C8: after `attachTexture`/`attachRenderbuffer` the framebuffer's single
attachment slot holds exactly the new attachment; the previously held
attachment (captured before the overwrite), if any, has had `delete()` invoked
on it, leaving its handle null.  The attachment field being a single slot, a
framebuffer never holds two attachments simultaneously. -/
theorem spec_C8 (fb : FramebufferState) (texture renderbuffer : GpuHandle) :
    ((Framebuffer.attachTexture fb texture).1.attachment = some texture
      ∧ (Framebuffer.attachTexture fb texture).2 =
          fb.attachment.map (fun w => (GpuHandle.deleteRes w).1)
      ∧ (∀ w, (Framebuffer.attachTexture fb texture).2 = some w → w.handle = none))
    ∧ ((Framebuffer.attachRenderbuffer fb renderbuffer).1.attachment = some renderbuffer
      ∧ (Framebuffer.attachRenderbuffer fb renderbuffer).2 =
          fb.attachment.map (fun w => (GpuHandle.deleteRes w).1)
      ∧ (∀ w, (Framebuffer.attachRenderbuffer fb renderbuffer).2 = some w →
          w.handle = none)) := by
  have hdel : ∀ old : GpuHandle, (GpuHandle.deleteRes old).1.handle = none := by
    intro old
    rcases h : old.handle with _ | v <;> simp [GpuHandle.deleteRes, h]
  have hgen : ∀ w, fb.attachment.map (fun x => (GpuHandle.deleteRes x).1) = some w →
      w.handle = none := by
    intro w hw
    rcases hmap : fb.attachment with _ | old
    · rw [hmap] at hw
      simp at hw
    · rw [hmap] at hw
      simp only [Option.map_some', Option.some.injEq] at hw
      rw [← hw]
      exact hdel old
  exact ⟨⟨rfl, rfl, fun w hw => hgen w hw⟩, ⟨rfl, rfl, fun w hw => hgen w hw⟩⟩

/-- C8 witness: a framebuffer holding a live attachment, re-attached. -/
theorem spec_C8_witness :
    (Framebuffer.attachTexture ⟨some 0, some ⟨1, some 5⟩⟩ ⟨2, some 7⟩).1.attachment =
      some ⟨2, some 7⟩ ∧
    (⟨1, none⟩ : GpuHandle).handle = none :=
  ⟨(spec_C8 ⟨some 0, some ⟨1, some 5⟩⟩ ⟨2, some 7⟩ ⟨3, some 8⟩).1.1,
   (spec_C8 ⟨some 0, some ⟨1, some 5⟩⟩ ⟨2, some 7⟩ ⟨3, some 8⟩).1.2.2 ⟨1, none⟩ rfl⟩

/-- C9: for a GPU-resource wrapper, the first `delete()` on a live handle
releases the underlying resource and nulls the handle; a `delete()` after that
is a no-op that releases nothing; `delete()` on an already-null handle is a
no-op.  All seven wrapper classes share this delete shape. -/
theorem spec_C9 (w : GpuHandle) :
    (w.handle ≠ none →
      (GpuHandle.deleteRes w).1.handle = none ∧ (GpuHandle.deleteRes w).2 = true)
    ∧ GpuHandle.deleteRes (GpuHandle.deleteRes w).1 = ((GpuHandle.deleteRes w).1, false)
    ∧ (w.handle = none → GpuHandle.deleteRes w = (w, false)) := by
  rcases h : w.handle with _ | v
  · exact ⟨fun hne => absurd rfl hne,
      by simp [GpuHandle.deleteRes, h],
      fun _ => by simp [GpuHandle.deleteRes, h]⟩
  · exact ⟨fun _ => by simp [GpuHandle.deleteRes, h],
      by simp [GpuHandle.deleteRes, h],
      fun h0 => absurd h0 (by simp [h])⟩

/-- C9 witness: deleting a live handle, then deleting again. -/
theorem spec_C9_witness :
    ((⟨0, some 5⟩ : GpuHandle).handle ≠ none) ∧
    (GpuHandle.deleteRes (⟨0, some 5⟩ : GpuHandle)).1.handle = none :=
  ⟨by simp, ((spec_C9 ⟨0, some 5⟩).1 (by simp)).1⟩

/-- C10: `end()` only reads the buckets (its definition does not touch the
`buckets` field), so a second `end()` without an intervening `begin()` binds
the same textures in the same order and appends the same per-bucket draw
batches again; only `begin()` empties the buckets. -/
theorem spec_C10 (sb : SpriteBatchState) (rs : RendererState) :
    (SpriteBatch.endBatch sb (SpriteBatch.endBatch sb rs).2).1 =
      (SpriteBatch.endBatch sb rs).1
    ∧ (SpriteBatch.endBatch sb rs).2.draws =
        rs.draws ++ sb.buckets.flatMap
          (fun bucket => (Renderer.replayBucket initState bucket.2).draws)
    ∧ (SpriteBatch.endBatch sb (SpriteBatch.endBatch sb rs).2).2.draws =
        (SpriteBatch.endBatch sb rs).2.draws ++ sb.buckets.flatMap
          (fun bucket => (Renderer.replayBucket initState bucket.2).draws)
    ∧ (SpriteBatch.beginBatch sb).buckets = [] := by
  refine ⟨?_, endBatch_snd_draws sb rs, endBatch_snd_draws sb _, rfl⟩
  rw [endBatch_fst, endBatch_fst]

/-! ### Proof infrastructure: text measurement and drawing -/

lemma measure_aux (font : Font) (size : ℚ) (str : List ℚ) : ∀ w : ℚ,
    str.foldl (fun width charCode =>
      match font.glyphAt charCode with
      | none => width
      | some glyph => width + size * glyph.advance) w =
    w + ((str.filterMap font.glyphAt).map (fun glyph => size * glyph.advance)).sum := by
  induction str with
  | nil =>
      intro w
      simp
  | cons c str ih =>
      intro w
      cases h : font.glyphAt c with
      | none => simp [List.foldl_cons, List.filterMap_cons, h, ih]
      | some glyph => simp [List.foldl_cons, List.filterMap_cons, h, ih, add_assoc]

lemma drawString_offset_aux (font : Font) (x y size r g b a : ℚ) (str : List ℚ) :
    ∀ (s : RendererState) (off : ℚ),
    (str.foldl (fun acc charCode =>
      match font.glyphAt charCode with
      | none => acc
      | some glyph =>
          (Renderer.drawChar acc.1 font (x + acc.2) y charCode size r g b a,
           acc.2 + size * glyph.advance)) (s, off)).2 =
    off + ((str.filterMap font.glyphAt).map (fun glyph => size * glyph.advance)).sum := by
  induction str with
  | nil =>
      intro s off
      simp
  | cons c str ih =>
      intro s off
      cases h : font.glyphAt c with
      | none => simp [List.foldl_cons, List.filterMap_cons, h, ih]
      | some glyph => simp [List.foldl_cons, List.filterMap_cons, h, ih, add_assoc]

lemma drawString_filter_aux (font : Font) (x y size r g b a : ℚ) (str : List ℚ) :
    ∀ acc : RendererState × ℚ,
    str.foldl (fun acc charCode =>
      match font.glyphAt charCode with
      | none => acc
      | some glyph =>
          (Renderer.drawChar acc.1 font (x + acc.2) y charCode size r g b a,
           acc.2 + size * glyph.advance)) acc =
    (str.filter (fun charCode => (font.glyphAt charCode).isSome)).foldl
      (fun acc charCode =>
        match font.glyphAt charCode with
        | none => acc
        | some glyph =>
            (Renderer.drawChar acc.1 font (x + acc.2) y charCode size r g b a,
             acc.2 + size * glyph.advance)) acc := by
  induction str with
  | nil =>
      intro acc
      rfl
  | cons c str ih =>
      intro acc
      cases h : font.glyphAt c with
      | none => simp [List.foldl_cons, List.filter_cons, h, ih]
      | some glyph => simp [List.foldl_cons, List.filter_cons, h, ih]

/-- C6: `measureString` equals the sum over the characters of `str` that have a
glyph of `size * glyph.advance` (glyphless characters contribute 0); the final
pen offset of `drawString` is exactly `measureString`; and `drawString` behaves
identically — same emitted geometry and same pen offsets — on `str` and on
`str` with the glyphless characters removed, so the skipped characters emit no
geometry and do not advance the pen. -/
theorem spec_C6 (font : Font) (x y : ℚ) (str : List ℚ) (size r g b a : ℚ)
    (s : RendererState) :
    Renderer.measureString font str size =
      ((str.filterMap font.glyphAt).map (fun glyph => size * glyph.advance)).sum
    ∧ (Renderer.drawString s font x y str size r g b a).2 =
        Renderer.measureString font str size
    ∧ Renderer.drawString s font x y str size r g b a =
        Renderer.drawString s font x y
          (str.filter (fun charCode => (font.glyphAt charCode).isSome)) size r g b a := by
  have hm : Renderer.measureString font str size =
      ((str.filterMap font.glyphAt).map (fun glyph => size * glyph.advance)).sum := by
    unfold Renderer.measureString
    rw [measure_aux]
    simp
  refine ⟨hm, ?_, ?_⟩
  · unfold Renderer.drawString
    rw [drawString_offset_aux, hm]
    simp
  · unfold Renderer.drawString
    exact drawString_filter_aux font x y size r g b a str (s, 0)

/-! ### Proof infrastructure: font serialization round trip -/

/-- The ten floats `serializeData` writes for one glyph. -/
def glyphFloats (g : Glyph) : List ℚ :=
  [g.charCode, g.advance, g.planeLeft, g.planeBottom, g.planeRight, g.planeTop,
   g.atlasLeft, g.atlasBottom, g.atlasRight, g.atlasTop]

lemma deserializeLoop_spec (buffer : List ℚ) :
    ∀ (ps : List (ℚ × Glyph)) (index : ℕ) (acc : List (ℚ × Glyph)),
    buffer.drop index = ps.flatMap (fun p => glyphFloats p.2) →
    Font.deserializeLoop buffer index ps.length acc =
      ps.foldl (fun acc p => glyphsInsert acc p.2.charCode p.2) acc := by
  intro ps
  induction ps with
  | nil =>
      intro index acc _
      rfl
  | cons p ps ih =>
      intro index acc hdrop
      have hreads : ∀ j : ℕ, buffer[index + j]? =
          (glyphFloats p.2 ++ ps.flatMap (fun q => glyphFloats q.2))[j]? := by
        intro j
        rw [← List.getElem?_drop, hdrop, List.flatMap_cons]
      have hr : ∀ j, j < 10 →
          bufferAt buffer (index + j) = ((glyphFloats p.2)[j]?).getD 0 := by
        intro j hj
        unfold bufferAt
        rw [hreads j,
          List.getElem?_append_left (show j < (glyphFloats p.2).length from hj)]
      have h0 : bufferAt buffer index = p.2.charCode := by
        have h := hr 0 (by norm_num)
        rw [Nat.add_zero] at h
        rw [h]
        rfl
      have h1 : bufferAt buffer (index + 1) = p.2.advance := by
        rw [hr 1 (by norm_num)]
        rfl
      have h2 : bufferAt buffer (index + 2) = p.2.planeLeft := by
        rw [hr 2 (by norm_num)]
        rfl
      have h3 : bufferAt buffer (index + 3) = p.2.planeBottom := by
        rw [hr 3 (by norm_num)]
        rfl
      have h4 : bufferAt buffer (index + 4) = p.2.planeRight := by
        rw [hr 4 (by norm_num)]
        rfl
      have h5 : bufferAt buffer (index + 5) = p.2.planeTop := by
        rw [hr 5 (by norm_num)]
        rfl
      have h6 : bufferAt buffer (index + 6) = p.2.atlasLeft := by
        rw [hr 6 (by norm_num)]
        rfl
      have h7 : bufferAt buffer (index + 7) = p.2.atlasBottom := by
        rw [hr 7 (by norm_num)]
        rfl
      have h8 : bufferAt buffer (index + 8) = p.2.atlasRight := by
        rw [hr 8 (by norm_num)]
        rfl
      have h9 : bufferAt buffer (index + 9) = p.2.atlasTop := by
        rw [hr 9 (by norm_num)]
        rfl
      have hdrop10 : buffer.drop (index + 10) = ps.flatMap (fun q => glyphFloats q.2) := by
        rw [← List.drop_drop, hdrop, List.flatMap_cons,
          show (10 : ℕ) = (glyphFloats p.2).length from rfl, List.drop_left]
      rw [List.length_cons]
      simp only [Font.deserializeLoop]
      rw [h0, h1, h2, h3, h4, h5, h6, h7, h8, h9, List.foldl_cons]
      exact ih (index + 10) _ hdrop10

lemma foldl_glyphsInsert :
    ∀ (ps : List (ℚ × Glyph)) (acc : List (ℚ × Glyph)),
    (∀ p ∈ ps, p.2.charCode = p.1) →
    (∀ p ∈ ps, p.1 ∉ acc.map Prod.fst) →
    (ps.map Prod.fst).Nodup →
    ps.foldl (fun acc p => glyphsInsert acc p.2.charCode p.2) acc = acc ++ ps := by
  intro ps
  induction ps with
  | nil =>
      intro acc _ _ _
      simp
  | cons p ps ih =>
      intro acc hinv hdis hnd
      rw [List.foldl_cons]
      have hkey : p.2.charCode = p.1 := hinv p (List.mem_cons_self p ps)
      have hnotin : p.1 ∉ acc.map Prod.fst := hdis p (List.mem_cons_self p ps)
      have hins : glyphsInsert acc p.2.charCode p.2 = acc ++ [(p.1, p.2)] := by
        unfold glyphsInsert
        rw [hkey, if_neg ?hfalse]
        case hfalse =>
          intro hany
          rcases List.any_eq_true.mp hany with ⟨q, hq, hq2⟩
          exact hnotin (List.mem_map.mpr ⟨q, hq, by simpa using hq2⟩)
      rw [hins, ih (acc ++ [(p.1, p.2)]) ?_ ?_ ?_]
      · rw [List.append_assoc, List.singleton_append]
      · exact fun q hq => hinv q (List.mem_cons_of_mem p hq)
      · intro q hq
        rw [List.map_append]
        intro hmem
        rcases List.mem_append.mp hmem with hmem | hmem
        · exact hdis q (List.mem_cons_of_mem p hq) hmem
        · have hq1 : q.1 = p.1 := by simpa using hmem
          rcases List.nodup_cons.mp hnd with ⟨hp, _⟩
          exact hp (hq1 ▸ List.mem_map_of_mem Prod.fst hq)
      · exact (List.nodup_cons.mp hnd).2

lemma deserialize_serialize (f : Font)
    (hinv : ∀ p ∈ f.glyphs, p.2.charCode = p.1)
    (hnd : (f.glyphs.map Prod.fst).Nodup) :
    Font.deserializeData ⟨[]⟩ (Font.serializeData f) = f := by
  have hcount : bufferAt (Font.serializeData f) 0 = ((f.glyphs.length : ℕ) : ℚ) := by
    unfold bufferAt Font.serializeData
    rw [List.getElem?_cons_zero]
    rfl
  unfold Font.deserializeData
  dsimp only
  rw [hcount, Int.ceil_natCast, Int.toNat_natCast,
    deserializeLoop_spec (Font.serializeData f) f.glyphs 1 []
      (show (Font.serializeData f).drop 1 =
        f.glyphs.flatMap (fun p => glyphFloats p.2) from rfl),
    foldl_glyphsInsert f.glyphs [] hinv (by simp) hnd,
    List.nil_append]

/-- C7: deserializing the binary serialization of a font's glyph table into a
fresh font reproduces the charCode-to-glyph mapping exactly: every charCode
maps to a glyph with the same advance, plane offsets and atlas UVs (values are
modelled as exact rationals, so equality here is the float equality of the
claim).  The hypotheses state the table invariants the Font class maintains:
each entry's key equals its glyph's `charCode` field, and keys are distinct. -/
theorem spec_C7 (f : Font)
    (hinv : ∀ p ∈ f.glyphs, p.2.charCode = p.1)
    (hnd : (f.glyphs.map Prod.fst).Nodup) (charCode : ℚ) :
    (Font.deserializeData ⟨[]⟩ (Font.serializeData f)).glyphAt charCode =
      f.glyphAt charCode := by
  rw [deserialize_serialize f hinv hnd]

/-- C7 witness: a one-glyph table round-trips. -/
theorem spec_C7_witness :
    (∀ p ∈ (⟨[(65, ⟨65, 1, 0, 0, 0, 0, 0, 0, 0, 0⟩)]⟩ : Font).glyphs,
      p.2.charCode = p.1) ∧
    (Font.deserializeData ⟨[]⟩
        (Font.serializeData ⟨[(65, ⟨65, 1, 0, 0, 0, 0, 0, 0, 0, 0⟩)]⟩)).glyphAt 65 =
      (⟨[(65, ⟨65, 1, 0, 0, 0, 0, 0, 0, 0, 0⟩)]⟩ : Font).glyphAt 65 :=
  ⟨by
    intro p hp
    rw [List.mem_singleton] at hp
    subst hp
    rfl,
   spec_C7 ⟨[(65, ⟨65, 1, 0, 0, 0, 0, 0, 0, 0, 0⟩)]⟩
     (by
       intro p hp
       rw [List.mem_singleton] at hp
       subst hp
       rfl)
     (by simp) 65⟩

end Nubik
